import Mathlib

/-!
Shallow embedding of the document access & versioning core of the
kodex-chef repository (`src/convex/documents.ts`, `src/convex/cases.ts`,
`src/convex/subscriptions.ts`, and the presence module), together with
proofs settling the specification claims about it.

Conventions of the embedding:
* Convex record ids are `Nat`; `ctx.db.insert` into the `documents` table
  draws the fresh id from a `nextId` counter carried in the state.
* `Date.now()` is an explicit `now` parameter.
* `getAuthUserId` is an explicit `Option Nat` parameter (`none` = anonymous);
  `getAuthenticatedUser` throwing on `null` becomes the `none` branch
  returning `.error "Not authenticated"`.
* A mutation/query that can `throw` returns `Except String α`, carrying the
  thrown message; the state is threaded explicitly, so an `.error` result
  models the aborted (unchanged-state) transaction.
* `.unique()` on an indexed query becomes `uniqueResult` on the filtered
  list: `none` for no row, the row if single, an error if several.
-/

/-- The permission roles of `documentPermissions.role`. -/
inductive Role where
  | viewer
  | editor
  | admin
deriving DecidableEq, Repr

/-- `roleHierarchy` from `checkDocumentPermission`: viewer 1, editor 2, admin 3. -/
def roleRank : Role → Nat
  | .viewer => 1
  | .editor => 2
  | .admin => 3

/-- A row of the `documents` table. -/
structure Doc where
  title : String
  content : String
  isPublic : Bool
  createdBy : Nat
  lastModifiedBy : Nat
  lastModifiedAt : Nat
  version : Nat
  shareableLink : Option String
  caseId : Option Nat
deriving DecidableEq, Repr

/-- A row of the `documentVersions` table. -/
structure DocVersion where
  documentId : Nat
  content : String
  version : Nat
  createdBy : Nat
  createdAt : Nat
  changeDescription : String
deriving DecidableEq, Repr

/-- A row of the `documentPermissions` table. -/
structure PermGrant where
  documentId : Nat
  userId : Nat
  role : Role
  grantedBy : Nat
  grantedAt : Nat
deriving DecidableEq, Repr

/-- A row of the `auditLogs` table (fields used by the documents/cases modules). -/
structure AuditLog where
  documentId : Option Nat
  caseId : Option Nat
  userId : Nat
  action : String
  details : Option String
  timestamp : Nat
deriving DecidableEq, Repr

/-- A row of the `cases` table. -/
structure LegalCase where
  name : String
  description : Option String
  createdBy : Nat
  createdAt : Nat
  lastModifiedAt : Nat
  isActive : Bool
  totalSize : Nat
  documentCount : Nat
deriving DecidableEq, Repr

/-- The document-module slice of the Convex database. -/
structure DB where
  documents : List (Nat × Doc)
  versions : List DocVersion
  permissions : List PermGrant
  auditLogs : List AuditLog
  cases : List (Nat × LegalCase)
  nextId : Nat
deriving DecidableEq, Repr

/-- `ctx.db.get(id)` on an id-keyed table: first row with the given key. -/
def findById {α : Type} (l : List (Nat × α)) (id : Nat) : Option α :=
  (l.find? (fun p => p.1 == id)).map (fun p => p.2)

/-- `ctx.db.get(documentId)` on the `documents` table. -/
def getDoc (db : DB) (documentId : Nat) : Option Doc :=
  findById db.documents documentId

/-- `ctx.db.patch(documentId, ...)` on the `documents` table: merge the patched
fields (given as a record transformer) into every row with that key. -/
def patchDoc (db : DB) (documentId : Nat) (f : Doc → Doc) : DB :=
  { db with documents :=
      db.documents.map (fun p => if p.1 = documentId then (p.1, f p.2) else p) }

/-- `.unique()` on a Convex query: `null` for no row, the row if single,
a thrown error if the index matches several rows. -/
def uniqueResult {α : Type} (l : List α) : Except String (Option α) :=
  match l with
  | [] => .ok none
  | [a] => .ok (some a)
  | _ :: _ :: _ => .error "unique() query returned more than one result"

/-- The rows of `documentPermissions` matching the `by_document_user` index. -/
def grantsFor (db : DB) (documentId userId : Nat) : List PermGrant :=
  db.permissions.filter (fun g => decide (g.documentId = documentId ∧ g.userId = userId))

/-- `checkDocumentPermission` from `src/convex/documents.ts` lines 15-50. -/
def checkDocumentPermission (db : DB) (documentId userId : Nat)
    (requiredRole : Role) : Except String Bool :=
  match getDoc db documentId with
  | none => .error "Document not found"
  | some document =>
    if document.createdBy = userId then
      .ok true
    else if document.isPublic = true ∧ requiredRole = Role.viewer then
      .ok true
    else
      match uniqueResult (grantsFor db documentId userId) with
      | .error e => .error e
      | .ok none => .ok false
      | .ok (some permission) =>
        .ok (decide (roleRank requiredRole ≤ roleRank permission.role))

/-- `createDocument` from `src/convex/documents.ts` lines 52-91.
`args.content || ""` and `args.isPublic || false` become `getD` defaults. -/
def createDocument (db : DB) (authUser : Option Nat) (title : String)
    (content : Option String) (isPublic : Option Bool) (now : Nat) :
    Except String (Nat × DB) :=
  match authUser with
  | none => .error "Not authenticated"
  | some userId =>
    let documentId := db.nextId
    let doc : Doc :=
      { title := title
        content := content.getD ""
        isPublic := isPublic.getD false
        createdBy := userId
        lastModifiedBy := userId
        lastModifiedAt := now
        version := 1
        shareableLink := none
        caseId := none }
    let dv : DocVersion :=
      { documentId := documentId
        content := content.getD ""
        version := 1
        createdBy := userId
        createdAt := now
        changeDescription := "Initial version" }
    let al : AuditLog :=
      { documentId := some documentId
        caseId := none
        userId := userId
        action := "create"
        details := none
        timestamp := now }
    .ok (documentId,
      { db with
          documents := db.documents ++ [(documentId, doc)]
          versions := db.versions ++ [dv]
          auditLogs := db.auditLogs ++ [al]
          nextId := db.nextId + 1 })

/-- `updateDocument` from `src/convex/documents.ts` lines 93-156. -/
def updateDocument (db : DB) (authUser : Option Nat) (documentId : Nat)
    (title content changeDescription : Option String) (now : Nat) :
    Except String (Nat × DB) :=
  match authUser with
  | none => .error "Not authenticated"
  | some userId =>
    match checkDocumentPermission db documentId userId Role.editor with
    | .error e => .error e
    | .ok false => .error "Insufficient permissions"
    | .ok true =>
      match getDoc db documentId with
      | none => .error "Document not found"
      | some document =>
        let al : AuditLog :=
          { documentId := some documentId
            caseId := none
            userId := userId
            action := "edit"
            details := changeDescription
            timestamp := now }
        let doc1 : Doc :=
          { document with
              lastModifiedBy := userId
              lastModifiedAt := now
              title := title.getD document.title }
        match content with
        | none =>
          let db1 := patchDoc db documentId (fun _ => doc1)
          .ok (documentId, { db1 with auditLogs := db1.auditLogs ++ [al] })
        | some c =>
          let doc2 : Doc := { doc1 with content := c, version := document.version + 1 }
          let dv : DocVersion :=
            { documentId := documentId
              content := c
              version := document.version + 1
              createdBy := userId
              createdAt := now
              changeDescription := changeDescription.getD "Document updated" }
          let db1 := patchDoc db documentId (fun _ => doc2)
          .ok (documentId,
            { db1 with
                versions := db1.versions ++ [dv]
                auditLogs := db1.auditLogs ++ [al] })

/-- `getDocument` from `src/convex/documents.ts` lines 158-186. -/
def getDocument (db : DB) (authUser : Option Nat) (documentId : Nat) :
    Except String (Option Doc) :=
  match getDoc db documentId with
  | none => .ok none
  | some document =>
    match authUser with
    | some userId =>
      match checkDocumentPermission db documentId userId Role.viewer with
      | .error e => .error e
      | .ok true => .ok (some document)
      | .ok false => .ok none
    | none =>
      if document.isPublic = true then .ok (some document) else .ok none

/-- `getDocumentByShareableLink` from `src/convex/documents.ts` lines 188-204. -/
def getDocumentByShareableLink (db : DB) (shareableLink : String) :
    Except String (Option Doc) :=
  match uniqueResult
      (db.documents.filter (fun p => decide (p.2.shareableLink = some shareableLink))) with
  | .error e => .error e
  | .ok none => .ok none
  | .ok (some p) =>
    if p.2.isPublic = true then .ok (some p.2) else .ok none

/-- An entry of the `listUserDocuments` result: the document (spread) plus the
`role` annotation added on shared entries. -/
structure DocListEntry where
  id : Nat
  doc : Doc
  role : Option Role
deriving DecidableEq, Repr

/-- `listUserDocuments` from `src/convex/documents.ts` lines 206-237: owned
documents, then documents with an explicit grant whose referenced document
still resolves (`sharedDocs.filter(Boolean)`), concatenated. -/
def listUserDocuments (db : DB) (authUser : Option Nat) : List DocListEntry :=
  match authUser with
  | none => []
  | some userId =>
    let ownedDocs :=
      (db.documents.filter (fun p => decide (p.2.createdBy = userId))).map
        (fun p => ({ id := p.1, doc := p.2, role := none } : DocListEntry))
    let sharedDocs :=
      (db.permissions.filter (fun g => decide (g.userId = userId))).filterMap
        (fun g => (getDoc db g.documentId).map
          (fun d => ({ id := g.documentId, doc := d, role := some g.role } : DocListEntry)))
    ownedDocs ++ sharedDocs

/-- `generateShareableLink` from `src/convex/documents.ts` lines 277-311.
Each `Math.random()` call is modelled as a machine seed `r1`/`r2` (a JS
double's value carries at most 53 significant bits, see the entropy theorem),
and `.toString(36).substring(2, 15)` as a pure function `half` of that seed;
the stored token is the concatenation of the two halves, exactly as in
the source. -/
def generateShareableLink (db : DB) (authUser : Option Nat) (documentId : Nat)
    (half : Nat → String) (r1 r2 : Nat) (now : Nat) :
    Except String (String × DB) :=
  match authUser with
  | none => .error "Not authenticated"
  | some userId =>
    match checkDocumentPermission db documentId userId Role.admin with
    | .error e => .error e
    | .ok false => .error "Insufficient permissions"
    | .ok true =>
      let shareableLink := half r1 ++ half r2
      let al : AuditLog :=
        { documentId := some documentId
          caseId := none
          userId := userId
          action := "share"
          details := some ("Generated shareable link: " ++ shareableLink)
          timestamp := now }
      let db1 := patchDoc db documentId
        (fun d => { d with shareableLink := some shareableLink, isPublic := true })
      .ok (shareableLink, { db1 with auditLogs := db1.auditLogs ++ [al] })

/-- `rollbackToVersion` from `src/convex/documents.ts` lines 388-454. -/
def rollbackToVersion (db : DB) (authUser : Option Nat) (documentId : Nat)
    (version : Nat) (now : Nat) : Except String (Nat × DB) :=
  match authUser with
  | none => .error "Not authenticated"
  | some userId =>
    match checkDocumentPermission db documentId userId Role.editor with
    | .error e => .error e
    | .ok false => .error "Insufficient permissions"
    | .ok true =>
      match uniqueResult (db.versions.filter
          (fun dv => decide (dv.documentId = documentId ∧ dv.version = version))) with
      | .error e => .error e
      | .ok none => .error "Version not found"
      | .ok (some targetVersion) =>
        match getDoc db documentId with
        | none => .error "Document not found"
        | some document =>
          let newVersion := document.version + 1
          let dv : DocVersion :=
            { documentId := documentId
              content := targetVersion.content
              version := newVersion
              createdBy := userId
              createdAt := now
              changeDescription := "Rolled back to version " ++ toString version }
          let al : AuditLog :=
            { documentId := some documentId
              caseId := none
              userId := userId
              action := "edit"
              details := some ("Rolled back to version " ++ toString version)
              timestamp := now }
          let db1 := patchDoc db documentId
            (fun d => { d with
                content := targetVersion.content
                version := newVersion
                lastModifiedBy := userId
                lastModifiedAt := now })
          .ok (newVersion,
            { db1 with
                versions := db1.versions ++ [dv]
                auditLogs := db1.auditLogs ++ [al] })

/-- `deleteDocument` from `src/convex/documents.ts` lines 456-501: audit first,
then delete all versions, then all grants, then the document row. The `cases`
table is not touched anywhere in this handler. -/
def deleteDocument (db : DB) (authUser : Option Nat) (documentId : Nat)
    (now : Nat) : Except String (Bool × DB) :=
  match authUser with
  | none => .error "Not authenticated"
  | some userId =>
    match getDoc db documentId with
    | none => .error "Document not found"
    | some document =>
      if document.createdBy = userId then
        let al : AuditLog :=
          { documentId := some documentId
            caseId := none
            userId := userId
            action := "delete"
            details := none
            timestamp := now }
        let db1 := { db with auditLogs := db.auditLogs ++ [al] }
        let keepV := db1.versions.filter (fun dv => decide (¬ dv.documentId = documentId))
        let db2 := { db1 with versions := keepV }
        let keepG := db2.permissions.filter (fun g => decide (¬ g.documentId = documentId))
        let db3 := { db2 with permissions := keepG }
        let keepD := db3.documents.filter (fun p => decide (¬ p.1 = documentId))
        .ok (true, { db3 with documents := keepD })
      else
        .error "Only the creator can delete this document"

/-- `removeDocumentFromCase` from `src/convex/cases.ts` lines 157-201.
`new TextEncoder().encode(content).length` is the UTF-8 byte length;
`Math.max(0, n - k)` is `Nat` truncated subtraction. -/
def removeDocumentFromCase (db : DB) (authUser : Option Nat)
    (caseId documentId : Nat) (now : Nat) : Except String (Bool × DB) :=
  match authUser with
  | none => .error "Not authenticated"
  | some userId =>
    match findById db.cases caseId with
    | none => .error "Case not found or access denied"
    | some caseDoc =>
      if caseDoc.createdBy = userId then
        match getDoc db documentId with
        | none => .error "Document not found in this case"
        | some document =>
          if document.caseId = some caseId then
            let documentSize := document.content.utf8ByteSize
            let al : AuditLog :=
              { documentId := some documentId
                caseId := some caseId
                userId := userId
                action := "remove_document_from_case"
                details := some ("Removed document \"" ++ document.title ++ "\" from case")
                timestamp := now }
            let db1 := patchDoc db documentId (fun d => { d with caseId := none })
            let newCases :=
              db1.cases.map (fun p =>
                if p.1 = caseId then
                  (p.1, { p.2 with
                      documentCount := p.2.documentCount - 1
                      totalSize := p.2.totalSize - documentSize
                      lastModifiedAt := now })
                else p)
            let db2 := { db1 with cases := newCases }
            .ok (true, { db2 with auditLogs := db2.auditLogs ++ [al] })
          else
            .error "Document not found in this case"
      else
        .error "Case not found or access denied"

/-- The gated features of `src/convex/subscriptions.ts`. -/
inductive Feature where
  | aiQuestions
  | tasksCreated
  | documentsCreated
  | pdfExports
  | calendarEvents
  | fileUploads
deriving DecidableEq, Repr

/-- A row of the `usageTracking` table. Counters are `Int` because
`v.number()` admits negative amounts and JS numbers subtract freely. -/
structure UsageRow where
  userId : Nat
  month : String
  aiQuestions : Int
  tasksCreated : Int
  documentsCreated : Int
  pdfExports : Int
  calendarEvents : Int
  fileUploads : Int
  lastUpdated : Nat
deriving DecidableEq, Repr

/-- `row[feature]`: dynamic field read. -/
def getFeature (r : UsageRow) : Feature → Int
  | .aiQuestions => r.aiQuestions
  | .tasksCreated => r.tasksCreated
  | .documentsCreated => r.documentsCreated
  | .pdfExports => r.pdfExports
  | .calendarEvents => r.calendarEvents
  | .fileUploads => r.fileUploads

/-- `{ [feature]: x }` patch: dynamic field write. -/
def setFeature (r : UsageRow) (f : Feature) (x : Int) : UsageRow :=
  match f with
  | .aiQuestions => { r with aiQuestions := x }
  | .tasksCreated => { r with tasksCreated := x }
  | .documentsCreated => { r with documentsCreated := x }
  | .pdfExports => { r with pdfExports := x }
  | .calendarEvents => { r with calendarEvents := x }
  | .fileUploads => { r with fileUploads := x }

/-- `args.amount || 1`: `undefined` and the falsy `0` both become 1. -/
def amountOrOne (amount : Option Int) : Int :=
  match amount with
  | none => 1
  | some a => if a = 0 then 1 else a

/-- The `by_user_month` index predicate of `usageTracking`. -/
def usageKey (userId : Nat) (month : String) (r : UsageRow) : Bool :=
  decide (r.userId = userId ∧ r.month = month)

/-- `ctx.db.patch` applied to the row `.first()` returned: rewrite the first
matching row in place, leave every other row untouched. -/
def replaceFirst {α : Type} (p : α → Bool) (f : α → α) : List α → List α
  | [] => []
  | a :: as => if p a then f a :: as else a :: replaceFirst p f as

/-- `incrementUsage` from `src/convex/subscriptions.ts` lines 133-176.
`new Date().toISOString().slice(0, 7)` is the `currentMonth` parameter. -/
def incrementUsage (rows : List UsageRow) (authUser : Option Nat)
    (currentMonth : String) (feature : Feature) (amount : Option Int)
    (now : Nat) : Except String (List UsageRow) :=
  match authUser with
  | none => .error "Not authenticated"
  | some userId =>
    let increment := amountOrOne amount
    match rows.find? (usageKey userId currentMonth) with
    | some _ =>
      .ok (replaceFirst (usageKey userId currentMonth)
        (fun r => { setFeature r feature (getFeature r feature + increment) with
            lastUpdated := now }) rows)
    | none =>
      .ok (rows ++ [{
          userId := userId
          month := currentMonth
          aiQuestions := if feature = .aiQuestions then increment else 0
          tasksCreated := if feature = .tasksCreated then increment else 0
          documentsCreated := if feature = .documentsCreated then increment else 0
          pdfExports := if feature = .pdfExports then increment else 0
          calendarEvents := if feature = .calendarEvents then increment else 0
          fileUploads := if feature = .fileUploads then increment else 0
          lastUpdated := now }])

/-- A row of the `presence` table. `lastSeen` and `now` are `Int` so that
`Date.now() - 30000` subtracts without truncation. -/
structure PresenceRec where
  userId : Nat
  documentId : Option Nat
  workspaceId : Option Nat
  lastSeen : Int
  isActive : Bool
  cursorPosition : Option Int
deriving DecidableEq, Repr

/-- The display fields read off a `users` row. -/
structure UserRec where
  name : String
  email : String
deriving DecidableEq, Repr

/-- A `getDocumentPresence` result entry: the presence row spread together
with the `user` display annotation (`null` when the user did not resolve). -/
structure PresenceInfo where
  presence : PresenceRec
  user : Option (String × String × Nat)
deriving DecidableEq, Repr

/-- `getDocumentPresence` from the presence module (`src/unnamed/part_000`
lines 51-86): rows of the document that are active and seen within the last
30 seconds, enriched with user info, then dropping the caller's own row and
rows whose user does not resolve. -/
def getDocumentPresence (presence : List PresenceRec)
    (users : List (Nat × UserRec)) (authUser : Option Nat) (documentId : Nat)
    (now : Int) : List PresenceInfo :=
  match authUser with
  | none => []
  | some userId =>
    let presenceRecords := presence.filter
      (fun p => decide (p.documentId = some documentId) && p.isActive &&
        decide (now - 30000 < p.lastSeen))
    let presenceWithUsers := presenceRecords.map
      (fun p =>
        (⟨p, (findById users p.userId).map (fun u => (u.name, u.email, p.userId))⟩ :
          PresenceInfo))
    presenceWithUsers.filter
      (fun e => e.user.isSome && decide (¬ e.presence.userId = userId))

/-- The `documentVersions` rows of one document (the `by_document` index),
in insertion order. -/
def versionsFor (db : DB) (documentId : Nat) : List DocVersion :=
  db.versions.filter (fun dv => decide (dv.documentId = documentId))

/-- The version-ledger invariant of one document: the document resolves, and
its stored snapshot numbers are exactly `1, 2, ..., version` in order —
unique, contiguous from 1, and as many snapshots as the current version. -/
def VersionInv (db : DB) (documentId : Nat) : Prop :=
  ∃ d, getDoc db documentId = some d ∧
    (versionsFor db documentId).map (fun dv => dv.version) = List.range' 1 d.version

/-- Well-formedness of the id counter: every stored document id and every
snapshot's document reference is below `nextId`, so a fresh insert collides
with nothing. Holds for every state built by the mutations. -/
def IdsFresh (db : DB) : Prop :=
  (∀ p ∈ db.documents, p.1 < db.nextId) ∧ (∀ dv ∈ db.versions, dv.documentId < db.nextId)

/-- Well-formedness of the grants table: no two rows share a
(document, user) pair — maintained by `grantDocumentPermission`'s upsert,
and assumed by the `.unique()` lookups. -/
def GrantsUnique (db : DB) : Prop :=
  db.permissions.Pairwise
    (fun g h => ¬ (g.documentId = h.documentId ∧ g.userId = h.userId))

/-- The arguments of one `updateDocument` call against a fixed document. -/
structure UpdateCall where
  uid : Nat
  title : Option String
  content : Option String
  changeDescription : Option String
  now : Nat

/-- Run a sequence of `updateDocument` calls against one document; a call
that throws leaves the store unchanged (the platform aborts the
transaction) and the sequence continues. -/
def runUpdates (db : DB) (documentId : Nat) : List UpdateCall → DB
  | [] => db
  | c :: cs =>
    match updateDocument db (some c.uid) documentId c.title c.content
        c.changeDescription c.now with
    | .ok r => runUpdates r.2 documentId cs
    | .error _ => runUpdates db documentId cs

/-- Every shareable-link token `generateShareableLink` can possibly store:
each `Math.random()` double carries at most 53 significant bits, so the
token is the image of a pair of seeds below `2 ^ 53` under the fixed
formatting function `half`. -/
def shareTokens (half : Nat → String) : Finset String :=
  ((Finset.range (2 ^ 53)) ×ˢ (Finset.range (2 ^ 53))).image
    (fun p => half p.1 ++ half p.2)

/-- A private document owned by user 1, at version 1. -/
def docW : Doc :=
  { title := "t", content := "hello", isPublic := false, createdBy := 1,
    lastModifiedBy := 1, lastModifiedAt := 0, version := 1,
    shareableLink := none, caseId := none }

/-- The initial snapshot of `docW`. -/
def dvW : DocVersion :=
  { documentId := 0, content := "hello", version := 1, createdBy := 1,
    createdAt := 0, changeDescription := "Initial version" }

/-- An editor grant on document 0 for user 2. -/
def grantW : PermGrant :=
  { documentId := 0, userId := 2, role := Role.editor, grantedBy := 1, grantedAt := 0 }

/-- A one-document store: document 0 (private, owner 1, version 1), its
initial snapshot, and an editor grant for user 2. -/
def dbW : DB :=
  { documents := [(0, docW)], versions := [dvW], permissions := [grantW],
    auditLogs := [], cases := [], nextId := 1 }

/-- A public document owned by user 1 carrying shareable link "tok". -/
def docPub : Doc :=
  { title := "p", content := "pub", isPublic := true, createdBy := 1,
    lastModifiedBy := 1, lastModifiedAt := 0, version := 1,
    shareableLink := some "tok", caseId := none }

/-- A store holding only the public linked document 3. -/
def dbPub : DB :=
  { documents := [(3, docPub)], versions := [], permissions := [],
    auditLogs := [], cases := [], nextId := 4 }

/-- Document 0 owned by user 1 and member of case 0 (content of 5 bytes). -/
def docInCase : Doc :=
  { title := "t", content := "hello", isPublic := false, createdBy := 1,
    lastModifiedBy := 1, lastModifiedAt := 0, version := 1,
    shareableLink := none, caseId := some 0 }

/-- Case 0 owned by user 1, accounting for exactly `docInCase`. -/
def caseW : LegalCase :=
  { name := "c", description := none, createdBy := 1, createdAt := 0,
    lastModifiedAt := 0, isActive := true, totalSize := 5, documentCount := 1 }

/-- A store where document 0 is a member of case 0 and the case counters
account for it. -/
def caseDb : DB :=
  { documents := [(0, docInCase)], versions := [dvW], permissions := [grantW],
    auditLogs := [], cases := [(0, caseW)], nextId := 1 }

/-- A viewer grant on document 0 held by its own creator, user 1. -/
def selfGrant : PermGrant :=
  { documentId := 0, userId := 1, role := Role.viewer, grantedBy := 1, grantedAt := 0 }

/-- A store where user 1 both owns document 0 and holds an explicit viewer
grant on it (reachable: `grantDocumentPermission` accepts any target user,
including the creator). -/
def dupDb : DB :=
  { documents := [(0, docW)], versions := [dvW], permissions := [selfGrant],
    auditLogs := [], cases := [], nextId := 1 }

/-- A usage row of user 7 for 2026-10 with every counter at zero. -/
def usageRow0 : UsageRow :=
  { userId := 7, month := "2026-10", aiQuestions := 0, tasksCreated := 0,
    documentsCreated := 0, pdfExports := 0, calendarEvents := 0,
    fileUploads := 0, lastUpdated := 0 }

/-- The usage table after adding 2 `aiQuestions` to `usageRow0` at time 3. -/
def c8AfterRows : List UsageRow :=
  [{ usageRow0 with aiQuestions := 2, lastUpdated := 3 }]

/-- Document 0 of `dbW` after user 2 rolls it back to version 1 at time 9. -/
def c3AfterDoc : Doc :=
  { title := "t", content := "hello", isPublic := false, createdBy := 1,
    lastModifiedBy := 2, lastModifiedAt := 9, version := 2,
    shareableLink := none, caseId := none }

/-- The snapshot appended by that rollback. -/
def c3AfterDv : DocVersion :=
  { documentId := 0, content := "hello", version := 2, createdBy := 2,
    createdAt := 9, changeDescription := "Rolled back to version " ++ toString 1 }

/-- The full store produced by that rollback. -/
def c3AfterDb : DB :=
  { documents := [(0, c3AfterDoc)], versions := [dvW, c3AfterDv],
    permissions := [grantW],
    auditLogs := [⟨some 0, none, 2, "edit",
      some ("Rolled back to version " ++ toString 1), 9⟩],
    cases := [], nextId := 1 }

/-- `caseDb` after owner 1 deletes document 0 at time 99: the document, its
snapshot and its grant are gone and the delete audit event is recorded, but
case 0 still carries `documentCount = 1` and `totalSize = 5`. -/
def c4AfterDb : DB :=
  { documents := [], versions := [], permissions := [],
    auditLogs := [⟨some 0, none, 1, "delete", none, 99⟩],
    cases := [(0, caseW)], nextId := 1 }

/-- `dbPub` after owner 1 generates a shareable link for document 3 at
time 7 with both modelled `Math.random()` seeds formatting to `"a"`. -/
def c5AfterDb : DB :=
  { documents := [(3, { docPub with shareableLink := some ("a" ++ "a"), isPublic := true })],
    versions := [], permissions := [],
    auditLogs := [⟨some 3, none, 1, "share",
      some ("Generated shareable link: " ++ ("a" ++ "a")), 7⟩],
    cases := [], nextId := 4 }

/-! Generic list and lookup lemmas -/

theorem findById_cons {α : Type} (a : Nat × α) (l : List (Nat × α)) (id : Nat) :
    findById (a :: l) id = if a.1 = id then some a.2 else findById l id := by
  by_cases h : a.1 = id <;> simp [findById, List.find?_cons, h]

theorem findById_patch_self {α : Type} (l : List (Nat × α)) (id : Nat) (f : α → α) :
    findById (l.map (fun p => if p.1 = id then (p.1, f p.2) else p)) id =
      (findById l id).map f := by
  induction l with
  | nil => rfl
  | cons a as ih =>
    by_cases h : a.1 = id
    · simp [List.map_cons, h, findById_cons]
    · simp [List.map_cons, h, findById_cons, ih]

theorem findById_append_fresh {α : Type} (l : List (Nat × α)) (id : Nat) (d : α)
    (h : ∀ p ∈ l, ¬ p.1 = id) : findById (l ++ [(id, d)]) id = some d := by
  induction l with
  | nil => simp [findById, List.find?]
  | cons a as ih =>
    have ha : ¬ a.1 = id := h a (List.mem_cons_self a as)
    rw [List.cons_append, findById_cons, if_neg ha]
    exact ih (fun p hp => h p (List.mem_cons_of_mem a hp))

theorem getDoc_patchDoc_self (db : DB) (id : Nat) (f : Doc → Doc) :
    getDoc (patchDoc db id f) id = (getDoc db id).map f := by
  simp [getDoc, patchDoc, findById_patch_self]

theorem uniqueResult_of_len_le_one {α : Type} (l : List α) (h : l.length ≤ 1) :
    uniqueResult l = .ok l.head? := by
  cases l with
  | nil => rfl
  | cons a t =>
    cases t with
    | nil => rfl
    | cons b t2 => simp [List.length_cons] at h

theorem eq_singleton_of_mem_len_le_one {α : Type} {a : α} {l : List α}
    (hm : a ∈ l) (h : l.length ≤ 1) : l = [a] := by
  cases l with
  | nil => cases hm
  | cons b t =>
    cases t with
    | nil => rw [List.mem_singleton] at hm; rw [hm]
    | cons c t2 => simp [List.length_cons] at h

theorem length_filter_le_one_of_pairwise_key (l : List PermGrant) (did uid : Nat)
    (h : l.Pairwise
      (fun g h => ¬ (g.documentId = h.documentId ∧ g.userId = h.userId))) :
    (l.filter (fun g => decide (g.documentId = did ∧ g.userId = uid))).length ≤ 1 := by
  induction l with
  | nil => simp
  | cons a as ih =>
    rw [List.pairwise_cons] at h
    by_cases hq : a.documentId = did ∧ a.userId = uid
    · have hnil : as.filter (fun g => decide (g.documentId = did ∧ g.userId = uid)) = [] := by
        rw [List.filter_eq_nil_iff]
        intro b hb
        simp only [decide_eq_true_eq]
        intro hqb
        exact h.1 b hb ⟨hq.1.trans hqb.1.symm, hq.2.trans hqb.2.symm⟩
      rw [List.filter_cons, if_pos (by simpa using hq), hnil]
      simp
    · simp only [List.filter_cons, decide_eq_true_eq, hq, if_false]
      exact ih h.2

theorem length_map_nodup_filter_le_one {α β : Type} [DecidableEq β] (f : α → β)
    (l : List α) (h : (l.map f).Nodup) (b : β) :
    (l.filter (fun a => decide (f a = b))).length ≤ 1 := by
  induction l with
  | nil => simp
  | cons a as ih =>
    rw [List.map_cons, List.nodup_cons] at h
    by_cases hq : f a = b
    · have hnil : as.filter (fun x => decide (f x = b)) = [] := by
        rw [List.filter_eq_nil_iff]
        intro x hx
        simp only [decide_eq_true_eq]
        intro hxb
        exact h.1 (by rw [hq, ← hxb]; exact List.mem_map_of_mem f hx)
      rw [List.filter_cons, if_pos (by simpa using hq), hnil]
      simp
    · simp only [List.filter_cons, decide_eq_true_eq, hq, if_false]
      exact ih h.2

/-! Permission-check characterization -/

theorem one_le_roleRank (r : Role) : 1 ≤ roleRank r := by
  cases r <;> simp [roleRank]

theorem grantsFor_len_le_one (db : DB) (did uid : Nat) (h : GrantsUnique db) :
    (grantsFor db did uid).length ≤ 1 :=
  length_filter_le_one_of_pairwise_key _ _ _ h

theorem check_owner (db : DB) (did uid : Nat) (role : Role) (d : Doc)
    (hd : getDoc db did = some d) (ho : d.createdBy = uid) :
    checkDocumentPermission db did uid role = .ok true := by
  simp [checkDocumentPermission, hd, ho]

theorem check_public_viewer (db : DB) (did uid : Nat) (d : Doc)
    (hd : getDoc db did = some d) (hp : d.isPublic = true) :
    checkDocumentPermission db did uid Role.viewer = .ok true := by
  simp only [checkDocumentPermission, hd]
  by_cases ho : d.createdBy = uid
  · rw [if_pos ho]
  · rw [if_neg ho, if_pos ⟨hp, trivial⟩]

theorem check_grant_case (db : DB) (did uid : Nat) (role : Role) (d : Doc)
    (hd : getDoc db did = some d) (hno : ¬ d.createdBy = uid)
    (hnp : ¬ (d.isPublic = true ∧ role = Role.viewer)) :
    checkDocumentPermission db did uid role =
      match uniqueResult (grantsFor db did uid) with
      | .error e => .error e
      | .ok none => .ok false
      | .ok (some g) => .ok (decide (roleRank role ≤ roleRank g.role)) := by
  simp only [checkDocumentPermission, hd]
  rw [if_neg hno, if_neg hnp]

theorem check_isOk (db : DB) (did uid : Nat) (role : Role) (d : Doc)
    (hd : getDoc db did = some d) (hg : (grantsFor db did uid).length ≤ 1) :
    ∃ b, checkDocumentPermission db did uid role = .ok b := by
  simp only [checkDocumentPermission, hd]
  by_cases ho : d.createdBy = uid
  · exact ⟨true, by rw [if_pos ho]⟩
  · rw [if_neg ho]
    by_cases hp : d.isPublic = true ∧ role = Role.viewer
    · exact ⟨true, by rw [if_pos hp]⟩
    · rw [if_neg hp, uniqueResult_of_len_le_one _ hg]
      cases hh : (grantsFor db did uid).head? with
      | none => exact ⟨false, rfl⟩
      | some g => exact ⟨decide (roleRank role ≤ roleRank g.role), rfl⟩

theorem grantsFor_ne_nil_iff (db : DB) (did uid : Nat) :
    grantsFor db did uid ≠ [] ↔
      ∃ g ∈ db.permissions, g.documentId = did ∧ g.userId = uid := by
  constructor
  · intro h
    match hm : grantsFor db did uid with
    | [] => exact absurd hm h
    | g :: t =>
      have hmem : g ∈ grantsFor db did uid := by
        rw [hm]; exact List.mem_cons_self g t
      simp only [grantsFor, List.mem_filter, decide_eq_true_eq] at hmem
      exact ⟨g, hmem.1, hmem.2⟩
  · rintro ⟨g, hgmem, h1, h2⟩ hnil
    have hmem : g ∈ grantsFor db did uid := by
      simp only [grantsFor, List.mem_filter, decide_eq_true_eq]
      exact ⟨hgmem, h1, h2⟩
    rw [hnil] at hmem
    cases hmem

theorem check_viewer_ok_iff (db : DB) (did uid : Nat) (d : Doc)
    (hd : getDoc db did = some d) (hg : (grantsFor db did uid).length ≤ 1) :
    (checkDocumentPermission db did uid Role.viewer = .ok true ↔
      (d.createdBy = uid ∨ d.isPublic = true ∨ grantsFor db did uid ≠ [])) := by
  constructor
  · intro h
    by_cases ho : d.createdBy = uid
    · exact Or.inl ho
    by_cases hp : d.isPublic = true
    · exact Or.inr (Or.inl hp)
    refine Or.inr (Or.inr ?_)
    rw [check_grant_case db did uid Role.viewer d hd ho (fun hh => hp hh.1),
      uniqueResult_of_len_le_one _ hg] at h
    intro hnil
    rw [hnil] at h
    simp at h
  · intro h
    by_cases ho : d.createdBy = uid
    · exact check_owner db did uid Role.viewer d hd ho
    by_cases hp : d.isPublic = true
    · exact check_public_viewer db did uid d hd hp
    have hgr : grantsFor db did uid ≠ [] := by
      rcases h with h | h | h
      · exact absurd h ho
      · exact absurd h hp
      · exact h
    obtain ⟨g, t, hm⟩ := List.exists_cons_of_ne_nil hgr
    have hmem : g ∈ grantsFor db did uid := by
      rw [hm]; exact List.mem_cons_self g t
    have hsing : grantsFor db did uid = [g] :=
      eq_singleton_of_mem_len_le_one hmem hg
    have h1 : roleRank Role.viewer ≤ roleRank g.role := one_le_roleRank g.role
    rw [check_grant_case db did uid Role.viewer d hd ho (fun hh => hp hh.1), hsing]
    simp [uniqueResult, h1]

/-- Claim C2: `checkDocumentPermission` resolves in order with first match
winning — the owner is always authorized; a public document authorizes a
viewer requirement; otherwise the explicit grant decides, with absence
meaning denial and presence authorizing iff the grant's rank reaches the
required rank under viewer(1) < editor(2) < admin(3); in particular a
non-owner holding an editor grant passes editor and viewer but fails
admin. -/
theorem c2_permission_resolution (db : DB) (documentId userId : Nat)
    (requiredRole : Role) (d : Doc) (hd : getDoc db documentId = some d) :
    (d.createdBy = userId →
      checkDocumentPermission db documentId userId requiredRole = .ok true) ∧
    (¬ d.createdBy = userId → d.isPublic = true → requiredRole = Role.viewer →
      checkDocumentPermission db documentId userId requiredRole = .ok true) ∧
    (¬ d.createdBy = userId → ¬ (d.isPublic = true ∧ requiredRole = Role.viewer) →
      grantsFor db documentId userId = [] →
      checkDocumentPermission db documentId userId requiredRole = .ok false) ∧
    (∀ g, ¬ d.createdBy = userId → ¬ (d.isPublic = true ∧ requiredRole = Role.viewer) →
      grantsFor db documentId userId = [g] →
      checkDocumentPermission db documentId userId requiredRole =
        .ok (decide (roleRank requiredRole ≤ roleRank g.role))) ∧
    (∀ g, ¬ d.createdBy = userId → grantsFor db documentId userId = [g] →
      g.role = Role.editor →
      checkDocumentPermission db documentId userId Role.editor = .ok true ∧
      checkDocumentPermission db documentId userId Role.viewer = .ok true ∧
      checkDocumentPermission db documentId userId Role.admin = .ok false) := by
  refine ⟨fun ho => check_owner db documentId userId requiredRole d hd ho,
    fun hno hp hr => ?_, fun hno hnp hgr => ?_, fun g hno hnp hgr => ?_,
    fun g hno hgr hrole => ⟨?_, ?_, ?_⟩⟩
  · subst hr
    exact check_public_viewer db documentId userId d hd hp
  · rw [check_grant_case db documentId userId requiredRole d hd hno hnp, hgr]
    rfl
  · rw [check_grant_case db documentId userId requiredRole d hd hno hnp, hgr]
    rfl
  · rw [check_grant_case db documentId userId Role.editor d hd hno
      (fun hh => by cases hh.2), hgr]
    simp [uniqueResult, hrole, roleRank]
  · have hlen : (grantsFor db documentId userId).length ≤ 1 := by
      rw [hgr]; exact Nat.le_refl 1
    rw [check_viewer_ok_iff db documentId userId d hd hlen]
    refine Or.inr (Or.inr ?_)
    rw [hgr]
    exact List.cons_ne_nil g []
  · rw [check_grant_case db documentId userId Role.admin d hd hno
      (fun hh => by cases hh.2), hgr]
    simp [uniqueResult, hrole, roleRank]

/-- Witness for C2: in the concrete store `dbW`, user 2 (a non-owner holding
an editor grant on the private document 0) passes the editor and viewer
checks and fails the admin check. -/
theorem c2_permission_resolution_witness :
    checkDocumentPermission dbW 0 2 Role.editor = .ok true ∧
    checkDocumentPermission dbW 0 2 Role.viewer = .ok true ∧
    checkDocumentPermission dbW 0 2 Role.admin = .ok false :=
  (c2_permission_resolution dbW 0 2 Role.editor docW rfl).2.2.2.2
    grantW (by decide) rfl rfl

/-- Claim C7: the read path never throws — for any caller (authenticated or
anonymous) and document id, `getDocument` returns `ok`; it returns the
document exactly when it exists and the caller is viewer-authorized (owner,
public document, or any explicit grant; anonymous callers only for public
documents), and `ok none` in every other case, so absent and forbidden are
indistinguishable. Stated under the grant-uniqueness well-formedness that
`grantDocumentPermission`'s upsert maintains. -/
theorem c7_get_document (db : DB) (documentId : Nat) (hwf : GrantsUnique db) :
    (∀ authUser, ∃ r, getDocument db authUser documentId = .ok r) ∧
    (∀ userId d, getDocument db (some userId) documentId = .ok (some d) ↔
      (getDoc db documentId = some d ∧
        (d.createdBy = userId ∨ d.isPublic = true ∨
          ∃ g ∈ db.permissions, g.documentId = documentId ∧ g.userId = userId))) ∧
    (∀ d, getDocument db none documentId = .ok (some d) ↔
      (getDoc db documentId = some d ∧ d.isPublic = true)) ∧
    (∀ authUser, (¬ ∃ d, getDocument db authUser documentId = .ok (some d)) →
      getDocument db authUser documentId = .ok none) := by
  have hthrow : ∀ authUser, ∃ r, getDocument db authUser documentId = .ok r := by
    intro authUser
    cases hd : getDoc db documentId with
    | none => exact ⟨none, by simp [getDocument, hd]⟩
    | some d =>
      cases authUser with
      | none =>
        by_cases hp : d.isPublic = true
        · exact ⟨some d, by simp [getDocument, hd, hp]⟩
        · exact ⟨none, by simp [getDocument, hd, hp]⟩
      | some uid =>
        obtain ⟨b, hb⟩ := check_isOk db documentId uid Role.viewer d hd
          (grantsFor_len_le_one db documentId uid hwf)
        cases b with
        | true => exact ⟨some d, by simp [getDocument, hd, hb]⟩
        | false => exact ⟨none, by simp [getDocument, hd, hb]⟩
  refine ⟨hthrow, fun userId d => ?_, fun d => ?_, fun authUser hne => ?_⟩
  · cases hd : getDoc db documentId with
    | none =>
      constructor
      · intro h
        simp [getDocument, hd] at h
      · rintro ⟨hsome, -⟩
        cases hsome
    | some d0 =>
      have hlen := grantsFor_len_le_one db documentId userId hwf
      have hiff := check_viewer_ok_iff db documentId userId d0 hd hlen
      obtain ⟨b, hb⟩ := check_isOk db documentId userId Role.viewer d0 hd hlen
      constructor
      · intro h
        simp only [getDocument, hd, hb] at h
        cases b with
        | false => simp at h
        | true =>
          simp at h
          refine ⟨by rw [h], ?_⟩
          have hauth := hiff.mp hb
          rw [← h]
          rcases hauth with h1 | h1 | h1
          · exact Or.inl h1
          · exact Or.inr (Or.inl h1)
          · exact Or.inr (Or.inr ((grantsFor_ne_nil_iff db documentId userId).mp h1))
      · rintro ⟨hsome, hauth⟩
        injection hsome with hsome
        subst hsome
        have : checkDocumentPermission db documentId userId Role.viewer = .ok true := by
          rw [hiff]
          rcases hauth with h1 | h1 | h1
          · exact Or.inl h1
          · exact Or.inr (Or.inl h1)
          · exact Or.inr (Or.inr ((grantsFor_ne_nil_iff db documentId userId).mpr h1))
        simp [getDocument, hd, this]
  · cases hd : getDoc db documentId with
    | none =>
      constructor
      · intro h
        simp [getDocument, hd] at h
      · rintro ⟨hsome, -⟩
        cases hsome
    | some d0 =>
      by_cases hp : d0.isPublic = true
      · constructor
        · intro h
          simp only [getDocument, hd, hp, if_true] at h
          simp at h
          rw [← h]
          exact ⟨rfl, hp⟩
        · rintro ⟨hsome, -⟩
          injection hsome with hsome
          subst hsome
          simp [getDocument, hd, hp]
      · constructor
        · intro h
          simp [getDocument, hd, hp] at h
        · rintro ⟨hsome, hpub⟩
          injection hsome with hsome
          subst hsome
          exact absurd hpub hp
  · obtain ⟨r, hr⟩ := hthrow authUser
    cases r with
    | none => exact hr
    | some d => exact absurd ⟨d, hr⟩ hne

/-- Witness for C7: in `dbW`, the granted non-owner 2 reads document 0,
and an anonymous reader of the private document gets `ok none`. -/
theorem c7_get_document_witness :
    getDocument dbW (some 2) 0 = .ok (some docW) ∧
    getDocument dbW none 0 = .ok none := by
  have h := c7_get_document dbW 0 (by unfold GrantsUnique; decide)
  constructor
  · exact (h.2.1 2 docW).mpr
      ⟨rfl, Or.inr (Or.inr ⟨grantW, by decide, rfl, rfl⟩)⟩
  · refine h.2.2.2 none ?_
    rintro ⟨d, hd⟩
    have := (h.2.2.1 d).mp hd
    have h1 : d = docW := by
      have := this.1
      simp [getDoc, dbW, findById] at this
      exact this.symm
    rw [h1] at this
    exact absurd this.2 (by decide)


/-! Version-ledger lemmas (claim C1) -/

theorem createDocument_spec (db : DB) (uid : Nat) (title : String)
    (content : Option String) (isPublic : Option Bool) (now : Nat)
    (hfresh : IdsFresh db) (documentId : Nat) (db1 : DB)
    (hc : createDocument db (some uid) title content isPublic now =
      .ok (documentId, db1)) :
    ∃ d, getDoc db1 documentId = some d ∧ d.version = 1 ∧
      versionsFor db1 documentId =
        [⟨documentId, content.getD "", 1, uid, now, "Initial version"⟩] := by
  simp only [createDocument] at hc
  injection hc with hc
  injection hc with h1 h2
  subst h1
  subst h2
  refine ⟨{ title := title, content := content.getD "", isPublic := isPublic.getD false, createdBy := uid, lastModifiedBy := uid, lastModifiedAt := now, version := 1, shareableLink := none, caseId := none }, ?_, rfl, ?_⟩
  · show findById (db.documents ++ [(db.nextId, _)]) db.nextId = _
    rw [findById_append_fresh]
    intro p hp
    exact Nat.ne_of_lt (hfresh.1 p hp)
  · show (db.versions ++ [_]).filter _ = _
    rw [List.filter_append]
    have hnil : db.versions.filter (fun dv => decide (dv.documentId = db.nextId)) = [] := by
      rw [List.filter_eq_nil_iff]
      intro dv hdv
      simp only [decide_eq_true_eq]
      exact Nat.ne_of_lt (hfresh.2 dv hdv)
    rw [hnil]
    simp

theorem updateDocument_ok_cases (db : DB) (uid documentId : Nat)
    (title content desc : Option String) (now : Nat) (res : Nat) (db' : DB)
    (h : updateDocument db (some uid) documentId title content desc now =
      .ok (res, db')) :
    ∃ document, getDoc db documentId = some document ∧ res = documentId ∧
      ((content = none ∧ db'.versions = db.versions ∧
        getDoc db' documentId = some { document with
          lastModifiedBy := uid, lastModifiedAt := now,
          title := title.getD document.title }) ∨
       (∃ c, content = some c ∧
        db'.versions = db.versions ++
          [⟨documentId, c, document.version + 1, uid, now, desc.getD "Document updated"⟩] ∧
        getDoc db' documentId = some { document with
          lastModifiedBy := uid, lastModifiedAt := now,
          title := title.getD document.title,
          content := c, version := document.version + 1 })) := by
  simp only [updateDocument] at h
  cases hck : checkDocumentPermission db documentId uid Role.editor with
  | error e => rw [hck] at h; simp at h
  | ok b =>
    rw [hck] at h
    cases b with
    | false => simp at h
    | true =>
      cases hd : getDoc db documentId with
      | none => rw [hd] at h; simp at h
      | some document =>
        rw [hd] at h
        cases content with
        | none =>
          injection h with h
          injection h with hres hdb
          subst hres
          subst hdb
          refine ⟨document, rfl, rfl, Or.inl ⟨rfl, rfl, ?_⟩⟩
          exact (getDoc_patchDoc_self db documentId (fun _ => { document with lastModifiedBy := uid, lastModifiedAt := now, title := title.getD document.title })).trans (by rw [hd]; rfl)
        | some c =>
          injection h with h
          injection h with hres hdb
          subst hres
          subst hdb
          refine ⟨document, rfl, rfl, Or.inr ⟨c, rfl, rfl, ?_⟩⟩
          exact (getDoc_patchDoc_self db documentId (fun _ => { document with lastModifiedBy := uid, lastModifiedAt := now, title := title.getD document.title, content := c, version := document.version + 1 })).trans (by rw [hd]; rfl)

theorem updateDocument_preserves_inv (db : DB) (uid documentId : Nat)
    (title content desc : Option String) (now : Nat) (res : Nat) (db' : DB)
    (h : updateDocument db (some uid) documentId title content desc now =
      .ok (res, db'))
    (hinv : VersionInv db documentId) : VersionInv db' documentId := by
  obtain ⟨document, hd, -, hcase⟩ :=
    updateDocument_ok_cases db uid documentId title content desc now res db' h
  obtain ⟨d0, hd0, hmap⟩ := hinv
  rw [hd] at hd0
  injection hd0 with hd0
  subst hd0
  rcases hcase with ⟨-, hv, hget⟩ | ⟨c, -, hv, hget⟩
  · refine ⟨_, hget, ?_⟩
    have hvf : versionsFor db' documentId = versionsFor db documentId := by
      simp only [versionsFor, hv]
    rw [hvf, hmap]
  · refine ⟨_, hget, ?_⟩
    have hvf : versionsFor db' documentId = versionsFor db documentId ++
        [⟨documentId, c, document.version + 1, uid, now, desc.getD "Document updated"⟩] := by
      simp only [versionsFor, hv, List.filter_append]
      simp
    rw [hvf, List.map_append, hmap]
    show List.range' 1 document.version ++ [document.version + 1] =
      List.range' 1 (document.version + 1)
    rw [List.range'_1_concat, Nat.add_comm 1 document.version]

theorem runUpdates_preserves_inv (documentId : Nat) (calls : List UpdateCall) :
    ∀ db : DB, VersionInv db documentId →
      VersionInv (runUpdates db documentId calls) documentId := by
  induction calls with
  | nil => exact fun db hinv => hinv
  | cons c cs ih =>
    intro db hinv
    show VersionInv (runUpdates db documentId (c :: cs)) documentId
    rw [runUpdates]
    cases hstep : updateDocument db (some c.uid) documentId c.title c.content
        c.changeDescription c.now with
    | ok r =>
      exact ih r.2 (updateDocument_preserves_inv db c.uid documentId c.title
        c.content c.changeDescription c.now r.1 r.2 (by rw [hstep]) hinv)
    | error e => exact ih db hinv

/-- Claim C1: a document is created at version 1 with exactly its initial
snapshot stored; after any sequence of `updateDocument` calls the stored
snapshot numbers are exactly `1, ..., version` (unique and contiguous) and
their count equals the current version; and each single update from any
reachable state bumps the version by exactly 1 and appends exactly one
snapshot when content is supplied, and leaves both the version and the
snapshot list untouched when only the title changes. -/
theorem c1_version_ledger (db : DB) (uid : Nat) (title : String)
    (content : Option String) (isPublic : Option Bool) (now : Nat)
    (documentId : Nat) (db1 : DB) (hfresh : IdsFresh db)
    (hcreate : createDocument db (some uid) title content isPublic now =
      .ok (documentId, db1)) :
    (∃ d, getDoc db1 documentId = some d ∧ d.version = 1 ∧
      versionsFor db1 documentId =
        [⟨documentId, content.getD "", 1, uid, now, "Initial version"⟩]) ∧
    (∀ calls, ∃ d, getDoc (runUpdates db1 documentId calls) documentId = some d ∧
      (versionsFor (runUpdates db1 documentId calls) documentId).map
        (fun dv => dv.version) = List.range' 1 d.version ∧
      (versionsFor (runUpdates db1 documentId calls) documentId).length = d.version) ∧
    (∀ (calls : List UpdateCall) (c : UpdateCall) (res : Nat) (db' : DB),
      updateDocument (runUpdates db1 documentId calls) (some c.uid) documentId
        c.title c.content c.changeDescription c.now = .ok (res, db') →
      ∃ d d', getDoc (runUpdates db1 documentId calls) documentId = some d ∧
        getDoc db' documentId = some d' ∧
        (c.content = none → d'.version = d.version ∧
          versionsFor db' documentId =
            versionsFor (runUpdates db1 documentId calls) documentId) ∧
        (∀ s, c.content = some s → d'.version = d.version + 1 ∧
          versionsFor db' documentId =
            versionsFor (runUpdates db1 documentId calls) documentId ++
              [⟨documentId, s, d.version + 1, c.uid, c.now,
                c.changeDescription.getD "Document updated"⟩])) := by
  obtain ⟨d1, hget1, hver1, hvf1⟩ :=
    createDocument_spec db uid title content isPublic now hfresh documentId db1 hcreate
  have hinv1 : VersionInv db1 documentId := by
    refine ⟨d1, hget1, ?_⟩
    rw [hvf1, hver1]
    rfl
  refine ⟨⟨d1, hget1, hver1, hvf1⟩, fun calls => ?_, fun calls c res db' hup => ?_⟩
  · obtain ⟨d, hget, hmap⟩ := runUpdates_preserves_inv documentId calls db1 hinv1
    refine ⟨d, hget, hmap, ?_⟩
    have hl := congrArg List.length hmap
    rw [List.length_map, List.length_range'] at hl
    exact hl
  · obtain ⟨document, hd, -, hcase⟩ :=
      updateDocument_ok_cases (runUpdates db1 documentId calls) c.uid documentId
        c.title c.content c.changeDescription c.now res db' hup
    rcases hcase with ⟨hnone, hv, hget⟩ | ⟨s0, hsome, hv, hget⟩
    · refine ⟨document, _, hd, hget, fun _ => ⟨rfl, ?_⟩, fun s hs => ?_⟩
      · simp only [versionsFor, hv]
      · rw [hnone] at hs
        cases hs
    · refine ⟨document, _, hd, hget, fun hn => ?_, fun s hs => ?_⟩
      · rw [hsome] at hn
        cases hn
      · rw [hsome] at hs
        injection hs with hs
        subst hs
        refine ⟨rfl, ?_⟩
        simp only [versionsFor, hv, List.filter_append]
        simp

/-- Witness for C1: concretely create a document in the empty store and run
one content update followed by one title-only update; the claim's theorem
applies with its hypotheses discharged by evaluation. -/
theorem c1_version_ledger_witness :
    ∃ d, getDoc (runUpdates
        { documents := [(0, { title := "t", content := "hello", isPublic := false, createdBy := 1, lastModifiedBy := 1, lastModifiedAt := 0, version := 1, shareableLink := none, caseId := none })], versions := [{ documentId := 0, content := "hello", version := 1, createdBy := 1, createdAt := 0, changeDescription := "Initial version" }], permissions := [], auditLogs := [⟨some 0, none, 1, "create", none, 0⟩], cases := [], nextId := 1 }
        0 [⟨1, none, some "v2", none, 5⟩, ⟨1, some "t2", none, none, 6⟩]) 0 = some d ∧
      (versionsFor (runUpdates
        { documents := [(0, { title := "t", content := "hello", isPublic := false, createdBy := 1, lastModifiedBy := 1, lastModifiedAt := 0, version := 1, shareableLink := none, caseId := none })], versions := [{ documentId := 0, content := "hello", version := 1, createdBy := 1, createdAt := 0, changeDescription := "Initial version" }], permissions := [], auditLogs := [⟨some 0, none, 1, "create", none, 0⟩], cases := [], nextId := 1 }
        0 [⟨1, none, some "v2", none, 5⟩, ⟨1, some "t2", none, none, 6⟩]) 0).map
        (fun dv => dv.version) = List.range' 1 d.version ∧
      (versionsFor (runUpdates
        { documents := [(0, { title := "t", content := "hello", isPublic := false, createdBy := 1, lastModifiedBy := 1, lastModifiedAt := 0, version := 1, shareableLink := none, caseId := none })], versions := [{ documentId := 0, content := "hello", version := 1, createdBy := 1, createdAt := 0, changeDescription := "Initial version" }], permissions := [], auditLogs := [⟨some 0, none, 1, "create", none, 0⟩], cases := [], nextId := 1 }
        0 [⟨1, none, some "v2", none, 5⟩, ⟨1, some "t2", none, none, 6⟩]) 0).length = d.version :=
  (c1_version_ledger
    { documents := [], versions := [], permissions := [], auditLogs := [], cases := [], nextId := 0 }
    1 "t" (some "hello") none 0 0
    { documents := [(0, { title := "t", content := "hello", isPublic := false, createdBy := 1, lastModifiedBy := 1, lastModifiedAt := 0, version := 1, shareableLink := none, caseId := none })], versions := [{ documentId := 0, content := "hello", version := 1, createdBy := 1, createdAt := 0, changeDescription := "Initial version" }], permissions := [], auditLogs := [⟨some 0, none, 1, "create", none, 0⟩], cases := [], nextId := 1 }
    (by refine ⟨?_, ?_⟩ <;> intro x hx <;> cases hx
      ) rfl).2.1
    [⟨1, none, some "v2", none, 5⟩, ⟨1, some "t2", none, none, 6⟩]

/-! Rollback lemmas (claim C3) -/

theorem length_filter_pair_le_one (l : List DocVersion) (did v : Nat)
    (h : ((l.filter (fun dv => decide (dv.documentId = did))).map
      (fun dv => dv.version)).Nodup) :
    (l.filter (fun dv => decide (dv.documentId = did ∧ dv.version = v))).length ≤ 1 := by
  induction l with
  | nil => simp
  | cons a as ih =>
    by_cases hq : a.documentId = did ∧ a.version = v
    · rw [List.filter_cons, if_pos (by simpa using hq)]
      rw [List.filter_cons, if_pos (by simpa using hq.1), List.map_cons,
        List.nodup_cons] at h
      have hnil : as.filter (fun dv => decide (dv.documentId = did ∧ dv.version = v)) = [] := by
        rw [List.filter_eq_nil_iff]
        intro b hb
        simp only [decide_eq_true_eq]
        rintro ⟨hb1, hb2⟩
        refine h.1 ?_
        rw [hq.2, ← hb2]
        exact List.mem_map_of_mem _ (List.mem_filter.mpr ⟨hb, by simpa using hb1⟩)
      rw [hnil]
      simp
    · rw [List.filter_cons, if_neg (by simpa using hq)]
      by_cases hq1 : a.documentId = did
      · rw [List.filter_cons, if_pos (by simpa using hq1), List.map_cons,
          List.nodup_cons] at h
        exact ih h.2
      · rw [List.filter_cons, if_neg (by simpa using hq1)] at h
        exact ih h

/-- Claim C3: for an editor-authorized caller, `rollbackToVersion` fails with
the version-not-found error when no snapshot numbered `v` exists for the
document, and otherwise appends a single new snapshot numbered
`version + 1` whose content equals the target snapshot, patches the document
to that content and version, returns the new number, rewrites or deletes no
existing snapshot, and never reuses `v` itself. -/
theorem c3_rollback (db : DB) (uid documentId v now : Nat) (document : Doc)
    (hck : checkDocumentPermission db documentId uid Role.editor = .ok true)
    (hd : getDoc db documentId = some document)
    (hinv : (versionsFor db documentId).map (fun dv => dv.version) =
      List.range' 1 document.version) :
    ((¬ ∃ dv ∈ db.versions, dv.documentId = documentId ∧ dv.version = v) →
      rollbackToVersion db (some uid) documentId v now =
        .error "Version not found") ∧
    (∀ target, target ∈ db.versions → target.documentId = documentId →
      target.version = v →
      (∃ r, rollbackToVersion db (some uid) documentId v now = .ok r) ∧
      (∀ nv db', rollbackToVersion db (some uid) documentId v now = .ok (nv, db') →
        nv = document.version + 1 ∧
        getDoc db' documentId = some { document with content := target.content, version := document.version + 1, lastModifiedBy := uid, lastModifiedAt := now } ∧
        db'.versions = db.versions ++ [⟨documentId, target.content, document.version + 1, uid, now, "Rolled back to version " ++ toString v⟩] ∧
        ¬ nv = v)) := by
  constructor
  · intro hne
    have hnil : db.versions.filter
        (fun dv => decide (dv.documentId = documentId ∧ dv.version = v)) = [] := by
      rw [List.filter_eq_nil_iff]
      intro dv hdv
      simp only [decide_eq_true_eq]
      intro hq
      exact hne ⟨dv, hdv, hq⟩
    simp only [rollbackToVersion, hck, hnil, uniqueResult]
  · intro target htmem ht1 ht2
    have hnodup : ((versionsFor db documentId).map (fun dv => dv.version)).Nodup := by
      rw [hinv]
      exact List.nodup_range' 1 document.version
    have hlen := length_filter_pair_le_one db.versions documentId v hnodup
    have htf : target ∈ db.versions.filter
        (fun dv => decide (dv.documentId = documentId ∧ dv.version = v)) :=
      List.mem_filter.mpr ⟨htmem, by simp [ht1, ht2]⟩
    have hsing := eq_singleton_of_mem_len_le_one htf hlen
    have hvle : v < 1 + document.version := by
      have hvm : v ∈ (versionsFor db documentId).map (fun dv => dv.version) := by
        rw [← ht2]
        exact List.mem_map_of_mem _ (List.mem_filter.mpr ⟨htmem, by simpa using ht1⟩)
      rw [hinv] at hvm
      exact (List.mem_range'_1.mp hvm).2
    constructor
    · cases hres : rollbackToVersion db (some uid) documentId v now with
      | error e =>
        exfalso
        simp only [rollbackToVersion, hck, hsing, uniqueResult, hd] at hres
        exact Except.noConfusion hres
      | ok r => exact ⟨r, rfl⟩
    · intro nv db' hres
      simp only [rollbackToVersion, hck, hsing, uniqueResult, hd] at hres
      injection hres with hres
      injection hres with hnv hdb
      subst hnv
      subst hdb
      refine ⟨rfl, ?_, rfl, by omega⟩
      exact (getDoc_patchDoc_self db documentId (fun d => { d with content := target.content, version := document.version + 1, lastModifiedBy := uid, lastModifiedAt := now })).trans (by rw [hd]; rfl)

/-- Witness for C3: in `dbW`, the editor-granted user 2 rolls document 0
back to its existing version 1, producing version 2 with the snapshot's
content and appending one new snapshot. -/
theorem c3_rollback_witness :
    2 = 2 ∧
    getDoc c3AfterDb 0 = some { docW with content := "hello", version := 2, lastModifiedBy := 2, lastModifiedAt := 9 } ∧
    c3AfterDb.versions = dbW.versions ++ [⟨0, "hello", 2, 2, 9, "Rolled back to version " ++ toString 1⟩] ∧
    ¬ (2 : Nat) = 1 :=
  ((c3_rollback dbW 2 0 1 9 docW rfl rfl rfl).2 dvW (by decide) rfl rfl).2
    2 c3AfterDb rfl

/-! Deletion (claim C4) -/

/-- Claim C4 (amended): only the owner may delete — any other caller fails
with the creator-only error and, the transaction aborting, changes nothing;
on the owner's call the delete audit event is appended (inserted before the
deletions in the handler), every snapshot and every grant of the document is
removed while rows of other documents are kept, and the document row itself
is removed; the `cases` table is NOT updated — deleting a case-member
document leaves the case's `documentCount` and `totalSize` unchanged. -/
theorem c4_delete_amended (db : DB) (uid documentId now : Nat) (document : Doc)
    (hd : getDoc db documentId = some document) :
    (¬ document.createdBy = uid →
      deleteDocument db (some uid) documentId now =
        .error "Only the creator can delete this document") ∧
    (document.createdBy = uid →
      ∃ r, deleteDocument db (some uid) documentId now = .ok r) ∧
    (∀ b db', deleteDocument db (some uid) documentId now = .ok (b, db') →
      b = true ∧
      db'.auditLogs = db.auditLogs ++ [⟨some documentId, none, uid, "delete", none, now⟩] ∧
      db'.versions = db.versions.filter (fun dv => decide (¬ dv.documentId = documentId)) ∧
      db'.permissions = db.permissions.filter (fun g => decide (¬ g.documentId = documentId)) ∧
      db'.documents = db.documents.filter (fun p => decide (¬ p.1 = documentId)) ∧
      db'.cases = db.cases ∧ db'.nextId = db.nextId) := by
  refine ⟨fun hno => ?_, fun ho => ?_, fun b db' hres => ?_⟩
  · simp only [deleteDocument, hd]
    rw [if_neg hno]
  · cases hres : deleteDocument db (some uid) documentId now with
    | error e =>
      exfalso
      simp only [deleteDocument, hd] at hres
      rw [if_pos ho] at hres
      exact Except.noConfusion hres
    | ok r => exact ⟨r, rfl⟩
  · simp only [deleteDocument, hd] at hres
    by_cases ho : document.createdBy = uid
    · rw [if_pos ho] at hres
      injection hres with hres
      injection hres with hb hdb
      subst hb
      subst hdb
      exact ⟨rfl, rfl, rfl, rfl, rfl, rfl, rfl⟩
    · rw [if_neg ho] at hres
      exact Except.noConfusion hres

/-- Witness for C4 (amended): in `caseDb`, non-owner 2 is rejected, and
owner 1's delete produces exactly `c4AfterDb` — versions, grants and the
document removed, audit appended, and the case row untouched. -/
theorem c4_delete_amended_witness :
    deleteDocument caseDb (some 2) 0 99 =
      .error "Only the creator can delete this document" ∧
    (true = true ∧
      c4AfterDb.auditLogs = caseDb.auditLogs ++ [⟨some 0, none, 1, "delete", none, 99⟩] ∧
      c4AfterDb.versions = caseDb.versions.filter (fun dv => decide (¬ dv.documentId = 0)) ∧
      c4AfterDb.permissions = caseDb.permissions.filter (fun g => decide (¬ g.documentId = 0)) ∧
      c4AfterDb.documents = caseDb.documents.filter (fun p => decide (¬ p.1 = 0)) ∧
      c4AfterDb.cases = caseDb.cases ∧ c4AfterDb.nextId = caseDb.nextId) :=
  ⟨(c4_delete_amended caseDb 2 0 99 docInCase rfl).1 (by decide),
   (c4_delete_amended caseDb 1 0 99 docInCase rfl).2.2 true c4AfterDb rfl⟩

/-- Counterexample for C4 as stated: owner 1 deletes document 0, a member of
case 0 whose counters account for exactly that document; the delete
succeeds, yet afterwards the case still records `documentCount = 1` and
`totalSize = 5` — the handler never touches the `cases` table, so the
claimed decrement does not happen. -/
theorem c4_delete_case_counters_counterexample :
    deleteDocument caseDb (some 1) 0 99 = .ok (true, c4AfterDb) ∧
    c4AfterDb.cases = caseDb.cases ∧
    (findById caseDb.documents 0).bind (fun d => d.caseId) = some 0 ∧
    findById c4AfterDb.cases 0 = some caseW ∧
    caseW.documentCount = 1 ∧ caseW.totalSize = 5 :=
  ⟨rfl, rfl, rfl, rfl, rfl, rfl⟩

/-! Shareable-link token entropy (claim C5) -/

set_option maxRecDepth 8000 in
/-- Claim C5 (code bug): for an admin-authorized caller,
`generateShareableLink` does store the generated token on the document, set
`isPublic` to true and append a `share` audit event — but the token is
fully determined by two `Math.random()` doubles of at most 53 significant
bits each, so at most `2 ^ 106 < 2 ^ 128` distinct tokens can ever be
produced: the stored token cannot carry 128 bits of entropy, and
`Math.random` is not a cryptographically secure generator. -/
theorem c5_shareable_link_entropy (db : DB) (uid documentId now : Nat)
    (half : Nat → String) (r1 r2 : Nat) (document : Doc)
    (hck : checkDocumentPermission db documentId uid Role.admin = .ok true)
    (hd : getDoc db documentId = some document)
    (h1 : r1 < 2 ^ 53) (h2 : r2 < 2 ^ 53) :
    (∀ tok db',
      generateShareableLink db (some uid) documentId half r1 r2 now = .ok (tok, db') →
      tok = half r1 ++ half r2 ∧
      getDoc db' documentId = some { document with shareableLink := some tok, isPublic := true } ∧
      db'.auditLogs = db.auditLogs ++ [⟨some documentId, none, uid, "share", some ("Generated shareable link: " ++ tok), now⟩] ∧
      tok ∈ shareTokens half) ∧
    (∃ r, generateShareableLink db (some uid) documentId half r1 r2 now = .ok r) ∧
    (shareTokens half).card ≤ 2 ^ 106 ∧ (2 ^ 106 : Nat) < 2 ^ 128 := by
  refine ⟨fun tok db' hres => ?_, ?_, ?_, ?_⟩
  · simp only [generateShareableLink, hck] at hres
    injection hres with hres
    injection hres with htok hdb
    subst htok
    subst hdb
    refine ⟨rfl, ?_, rfl, ?_⟩
    · exact (getDoc_patchDoc_self db documentId (fun d => { d with shareableLink := some (half r1 ++ half r2), isPublic := true })).trans (by rw [hd]; rfl)
    · simp only [shareTokens, Finset.mem_image, Finset.mem_product, Finset.mem_range]
      exact ⟨(r1, r2), ⟨h1, h2⟩, rfl⟩
  · cases hres : generateShareableLink db (some uid) documentId half r1 r2 now with
    | error e =>
      exfalso
      simp only [generateShareableLink, hck] at hres
      exact Except.noConfusion hres
    | ok r => exact ⟨r, rfl⟩
  · refine le_trans Finset.card_image_le ?_
    rw [Finset.card_product, Finset.card_range, ← pow_add]
  · exact Nat.pow_lt_pow_right (by norm_num) (by norm_num)

/-- Witness for C5: owner 1 of public document 3 generates a link with both
seeds formatting to "a"; the stored token is the concatenation, `isPublic`
is set, the audit event is appended, the token lies in the bounded token
space, and that space is smaller than 128 bits allow. -/
theorem c5_shareable_link_entropy_witness :
    (("a" ++ "a" : String) = "a" ++ "a" ∧
      getDoc c5AfterDb 3 = some { docPub with shareableLink := some ("a" ++ "a"), isPublic := true } ∧
      c5AfterDb.auditLogs = dbPub.auditLogs ++ [⟨some 3, none, 1, "share", some ("Generated shareable link: " ++ ("a" ++ "a")), 7⟩] ∧
      ("a" ++ "a") ∈ shareTokens (fun _ : Nat => "a")) ∧
    (2 ^ 106 : Nat) < 2 ^ 128 :=
  ⟨(c5_shareable_link_entropy dbPub 1 3 7 (fun _ => "a") 0 0 docPub rfl rfl
      (by norm_num) (by norm_num)).1 ("a" ++ "a") c5AfterDb rfl,
   (c5_shareable_link_entropy dbPub 1 3 7 (fun _ => "a") 0 0 docPub rfl rfl
      (by norm_num) (by norm_num)).2.2.2⟩

/-! Document listing (claim C6) -/

/-- Claim C6 (amended): `listUserDocuments` returns the concatenation of the
documents the user owns (role annotation `none`) and the documents of the
user's explicit grants whose referenced document still resolves (annotated
with the grant's role). The result is NOT deduplicated: a document the user
both owns and holds a grant on contributes one entry per source. -/
theorem c6_list_union (db : DB) (userId : Nat) (e : DocListEntry) :
    e ∈ listUserDocuments db (some userId) ↔
      (((e.id, e.doc) ∈ db.documents ∧ e.doc.createdBy = userId ∧ e.role = none) ∨
       (∃ g ∈ db.permissions, g.userId = userId ∧ g.documentId = e.id ∧
         getDoc db e.id = some e.doc ∧ e.role = some g.role)) := by
  obtain ⟨i, d, r⟩ := e
  simp only [listUserDocuments, List.mem_append, List.mem_map, List.mem_filter,
    List.mem_filterMap, decide_eq_true_eq, Option.map_eq_some', DocListEntry.mk.injEq]
  constructor
  · rintro (⟨p, ⟨hp, hcb⟩, hi, hdoc, hrole⟩ | ⟨g, ⟨hg, hu⟩, ⟨d0, hd0, hi, hdoc, hrole⟩⟩)
    · subst hi
      subst hdoc
      subst hrole
      exact Or.inl ⟨hp, hcb, rfl⟩
    · subst hi
      subst hdoc
      subst hrole
      exact Or.inr ⟨g, hg, hu, rfl, hd0, rfl⟩
  · rintro (⟨hp, hcb, hrole⟩ | ⟨g, hg, hu, hi, hd, hrole⟩)
    · subst hrole
      exact Or.inl ⟨(i, d), ⟨hp, hcb⟩, rfl, rfl, rfl⟩
    · subst hrole
      subst hi
      exact Or.inr ⟨g, ⟨hg, hu⟩, d, hd, rfl, rfl, rfl⟩

/-- Counterexample for C6 as stated: in `dupDb`, user 1 owns document 0 and
also holds an explicit viewer grant on it; `listUserDocuments` returns
document id 0 twice, so the result is not deduplicated by id. -/
theorem c6_duplicate_counterexample :
    (listUserDocuments dupDb (some 1)).map (fun e => e.id) = [0, 0] ∧
    (findById dupDb.documents 0).map (fun d => d.createdBy) = some 1 ∧
    selfGrant ∈ dupDb.permissions ∧ selfGrant.userId = 1 ∧ selfGrant.documentId = 0 :=
  ⟨rfl, rfl, List.mem_cons_self _ _, rfl, rfl⟩

/-! Usage counters (claim C8) -/

theorem getFeature_setFeature (r : UsageRow) (f : Feature) (x : Int) (g : Feature) :
    getFeature (setFeature r f x) g = if g = f then x else getFeature r g := by
  cases f <;> cases g <;> simp [getFeature, setFeature]

theorem getFeature_lastUpdated (r : UsageRow) (now : Nat) (g : Feature) :
    getFeature { r with lastUpdated := now } g = getFeature r g := by
  cases g <;> rfl

theorem mem_replaceFirst {α : Type} (p : α → Bool) (f : α → α) (l : List α)
    (r : α) (h : r ∈ replaceFirst p f l) :
    r ∈ l ∨ ∃ a ∈ l, r = f a := by
  induction l with
  | nil => cases h
  | cons a as ih =>
    rw [replaceFirst] at h
    by_cases hp : p a = true
    · rw [if_pos hp] at h
      rcases List.mem_cons.mp h with h1 | h1
      · exact Or.inr ⟨a, List.mem_cons_self a as, h1⟩
      · exact Or.inl (List.mem_cons_of_mem a h1)
    · rw [if_neg hp] at h
      rcases List.mem_cons.mp h with h1 | h1
      · exact Or.inl (h1 ▸ List.mem_cons_self a as)
      · rcases ih h1 with h2 | ⟨b, hb, h2⟩
        · exact Or.inl (List.mem_cons_of_mem a h2)
        · exact Or.inr ⟨b, List.mem_cons_of_mem a hb, h2⟩

/-- Claim C8 (amended): for a positive effective amount,
`incrementUsage` patches the first (user, month) row in place when one
exists — adding the amount to the named feature only and leaving every
other feature of the row and every other row unchanged — and otherwise
appends a fresh row with the named feature at the amount and all other
features at 0; under positive amounts all counters stay non-negative.
(`amount || 1` turns a missing or zero amount into 1; a negative amount is
applied as-is and can drive a counter negative, which is why the claim as
stated fails — see the counterexample.) -/
theorem c8_increment_amended (rows : List UsageRow) (userId : Nat)
    (month : String) (feature : Feature) (amount : Option Int) (now : Nat)
    (hpos : 0 < amountOrOne amount) :
    (∀ rows', incrementUsage rows (some userId) month feature amount now = .ok rows' →
      ((∃ r0, rows.find? (usageKey userId month) = some r0) →
        rows' = replaceFirst (usageKey userId month)
          (fun r => { setFeature r feature (getFeature r feature + amountOrOne amount) with lastUpdated := now }) rows) ∧
      (rows.find? (usageKey userId month) = none →
        rows' = rows ++ [{
          userId := userId, month := month,
          aiQuestions := if feature = .aiQuestions then amountOrOne amount else 0,
          tasksCreated := if feature = .tasksCreated then amountOrOne amount else 0,
          documentsCreated := if feature = .documentsCreated then amountOrOne amount else 0,
          pdfExports := if feature = .pdfExports then amountOrOne amount else 0,
          calendarEvents := if feature = .calendarEvents then amountOrOne amount else 0,
          fileUploads := if feature = .fileUploads then amountOrOne amount else 0,
          lastUpdated := now }]) ∧
      ((∀ r ∈ rows, ∀ g, 0 ≤ getFeature r g) → ∀ r ∈ rows', ∀ g, 0 ≤ getFeature r g)) ∧
    (∀ r g, getFeature ({ setFeature r feature (getFeature r feature + amountOrOne amount) with lastUpdated := now }) g =
      if g = feature then getFeature r feature + amountOrOne amount else getFeature r g) ∧
    (∀ f2, ¬ f2 = feature →
      (if f2 = feature then amountOrOne amount else (0 : Int)) = 0) ∧
    (∃ rows', incrementUsage rows (some userId) month feature amount now = .ok rows') := by
  refine ⟨fun rows' hres => ?_, fun r g => ?_, fun f2 hf2 => if_neg hf2, ?_⟩
  · cases hfind : rows.find? (usageKey userId month) with
    | some r0 =>
      simp only [incrementUsage, hfind] at hres
      injection hres with hres
      subst hres
      refine ⟨fun _ => rfl, fun hnone => ?_, fun hnn r hr g => ?_⟩
      · cases hnone
      · rcases mem_replaceFirst _ _ _ r hr with h1 | ⟨a, ha, h1⟩
        · exact hnn r h1 g
        · subst h1
          rw [getFeature_lastUpdated, getFeature_setFeature]
          by_cases hg : g = feature
          · rw [if_pos hg]
            have := hnn a ha feature
            omega
          · rw [if_neg hg]
            exact hnn a ha g
    | none =>
      simp only [incrementUsage, hfind] at hres
      injection hres with hres
      subst hres
      refine ⟨fun hsome => ?_, fun _ => rfl, fun hnn r hr g => ?_⟩
      · obtain ⟨r0, hr0⟩ := hsome
        cases hr0
      · rcases List.mem_append.mp hr with h1 | h1
        · exact hnn r h1 g
        · rw [List.mem_singleton] at h1
          subst h1
          cases g <;> simp only [getFeature] <;> split <;> omega
  · rw [getFeature_lastUpdated, getFeature_setFeature]
  · cases hres : incrementUsage rows (some userId) month feature amount now with
    | error e =>
      exfalso
      cases hfind : rows.find? (usageKey userId month) with
      | some r0 =>
        simp only [incrementUsage, hfind] at hres
        exact Except.noConfusion hres
      | none =>
        simp only [incrementUsage, hfind] at hres
        exact Except.noConfusion hres
    | ok r => exact ⟨r, rfl⟩

/-- Witness for C8 (amended): adding 2 `aiQuestions` to the all-zero row of
user 7 patches exactly that row via `replaceFirst`, matching `c8AfterRows`. -/
theorem c8_increment_amended_witness :
    c8AfterRows = replaceFirst (usageKey 7 "2026-10")
      (fun r => { setFeature r Feature.aiQuestions (getFeature r Feature.aiQuestions + amountOrOne (some 2)) with lastUpdated := 3 }) [usageRow0] :=
  (((c8_increment_amended [usageRow0] 7 "2026-10" Feature.aiQuestions (some 2) 3
      (by decide)).1 c8AfterRows rfl).1) ⟨usageRow0, rfl⟩

/-- Counterexample for C8 as stated: `incrementUsage` accepts a negative
amount (`v.number()` is signed and `amount || 1` only coerces 0), so one
call with amount -1 drives user 7's `pdfExports` counter from 0 to -1 —
counters are neither never-negative nor monotonically non-decreasing. -/
theorem c8_negative_counterexample :
    incrementUsage [usageRow0] (some 7) "2026-10" Feature.pdfExports (some (-1)) 5 =
      .ok [{ usageRow0 with pdfExports := -1, lastUpdated := 5 }] ∧
    ((-1 : Int) < 0) :=
  ⟨rfl, by decide⟩

/-! Presence (claim C9) -/

/-- Claim C9: `getDocumentPresence` returns exactly the presence rows of the
document whose `isActive` flag is true and whose `lastSeen` is strictly less
than 30 seconds (30000 ms) before `now` — a record 30 or more seconds old,
in particular a 31-second-old one, is excluded — excluding the requesting
user's own row, and dropping any row whose user does not resolve; each kept
row is enriched with the user's name, email and id. -/
theorem c9_presence_active_window (presence : List PresenceRec)
    (users : List (Nat × UserRec)) (userId documentId : Nat) (now : Int)
    (e : PresenceInfo) :
    e ∈ getDocumentPresence presence users (some userId) documentId now ↔
      ∃ p ∈ presence, p.documentId = some documentId ∧ p.isActive = true ∧
        now - p.lastSeen < 30000 ∧ ¬ p.userId = userId ∧
        ∃ u, findById users p.userId = some u ∧
          e = ⟨p, some (u.name, u.email, p.userId)⟩ := by
  constructor
  · intro h
    rw [getDocumentPresence, List.mem_filter] at h
    obtain ⟨hmem, hcond⟩ := h
    rw [List.mem_map] at hmem
    obtain ⟨p, hpf, he⟩ := hmem
    rw [List.mem_filter] at hpf
    obtain ⟨hp, hq⟩ := hpf
    simp only [Bool.and_eq_true, decide_eq_true_eq] at hq hcond
    subst he
    obtain ⟨⟨hdoc, hact⟩, htime⟩ := hq
    obtain ⟨hsome, hne⟩ := hcond
    rw [Option.isSome_iff_exists] at hsome
    obtain ⟨y, hy⟩ := hsome
    rw [Option.map_eq_some'] at hy
    obtain ⟨u, hu, hfu⟩ := hy
    refine ⟨p, hp, hdoc, hact, by omega, hne, u, hu, ?_⟩
    simp [hu]
  · rintro ⟨p, hp, hdoc, hact, htime, hne, u, hu, he⟩
    subst he
    rw [getDocumentPresence, List.mem_filter]
    constructor
    · rw [List.mem_map]
      refine ⟨p, ?_, ?_⟩
      · rw [List.mem_filter]
        refine ⟨hp, ?_⟩
        simp only [Bool.and_eq_true, decide_eq_true_eq]
        exact ⟨⟨hdoc, hact⟩, by omega⟩
      · simp [hu]
    · simp [hne]

/-! Shareable-link lookup (claim C10) -/

/-- Claim C10: `getDocumentByShareableLink` returns a document exactly when
a stored document carries that token as its `shareableLink` AND is
currently public; with no such token, or with the owning document no longer
public, it returns null — so flipping `isPublic` off disables an
already-issued link. Stated under at-most-one holder of the token, which
the `.unique()` lookup requires. -/
theorem c10_shareable_link_lookup (db : DB) (token : String)
    (hu : (db.documents.filter
      (fun p => decide (p.2.shareableLink = some token))).length ≤ 1) :
    (∀ d, getDocumentByShareableLink db token = .ok (some d) ↔
      (∃ id, (id, d) ∈ db.documents ∧ d.shareableLink = some token ∧
        d.isPublic = true)) ∧
    ((¬ ∃ id d, (id, d) ∈ db.documents ∧ (d : Doc).shareableLink = some token ∧
        d.isPublic = true) →
      getDocumentByShareableLink db token = .ok none) := by
  have hres : getDocumentByShareableLink db token =
      match (db.documents.filter (fun p => decide (p.2.shareableLink = some token))).head? with
      | none => .ok none
      | some p => if p.2.isPublic = true then .ok (some p.2) else .ok none := by
    rw [getDocumentByShareableLink, uniqueResult_of_len_le_one _ hu]
    cases (db.documents.filter (fun p => decide (p.2.shareableLink = some token))).head? with
    | none => rfl
    | some p => rfl
  cases hf : db.documents.filter (fun p => decide (p.2.shareableLink = some token)) with
  | nil =>
    rw [hf] at hres
    simp only [List.head?_nil] at hres
    constructor
    · intro d
      rw [hres]
      constructor
      · intro h
        cases h
      · rintro ⟨id, hmem, hlink, -⟩
        exfalso
        have : (id, d) ∈ db.documents.filter
            (fun p => decide (p.2.shareableLink = some token)) :=
          List.mem_filter.mpr ⟨hmem, by simpa using hlink⟩
        rw [hf] at this
        cases this
    · intro _
      rw [hres]
  | cons p t =>
    have ht : t = [] := by
      rw [hf] at hu
      cases t with
      | nil => rfl
      | cons b t2 => simp [List.length_cons] at hu
    subst ht
    have hpmem : p ∈ db.documents.filter
        (fun p => decide (p.2.shareableLink = some token)) := by
      rw [hf]
      exact List.mem_cons_self p []
    have hpdocs : p ∈ db.documents := List.mem_of_mem_filter hpmem
    have hplink : p.2.shareableLink = some token := by
      have := (List.mem_filter.mp hpmem).2
      simpa using this
    rw [hf] at hres
    simp only [List.head?_cons] at hres
    constructor
    · intro d
      rw [hres]
      by_cases hpub : p.2.isPublic = true
      · rw [if_pos hpub]
        constructor
        · intro h
          injection h with h
          injection h with h
          subst h
          exact ⟨p.1, hpdocs, hplink, hpub⟩
        · rintro ⟨id, hmem, hlink, hpubd⟩
          have : (id, d) ∈ db.documents.filter
              (fun p => decide (p.2.shareableLink = some token)) :=
            List.mem_filter.mpr ⟨hmem, by simpa using hlink⟩
          rw [hf, List.mem_singleton] at this
          rw [← this]
      · rw [if_neg hpub]
        constructor
        · intro h
          cases h
        · rintro ⟨id, hmem, hlink, hpubd⟩
          exfalso
          have : (id, d) ∈ db.documents.filter
              (fun p => decide (p.2.shareableLink = some token)) :=
            List.mem_filter.mpr ⟨hmem, by simpa using hlink⟩
          rw [hf, List.mem_singleton] at this
          rw [← this] at hpub
          exact hpub hpubd
    · intro hne
      rw [hres]
      by_cases hpub : p.2.isPublic = true
      · exfalso
        exact hne ⟨p.1, p.2, hpdocs, hplink, hpub⟩
      · rw [if_neg hpub]

/-- Witness for C10: in `dbPub`, the token "tok" resolves to the public
document 3, and an unknown token resolves to null. -/
theorem c10_shareable_link_lookup_witness :
    getDocumentByShareableLink dbPub "tok" = .ok (some docPub) ∧
    getDocumentByShareableLink dbPub "nope" = .ok none :=
  ⟨((c10_shareable_link_lookup dbPub "tok" (by decide)).1 docPub).mpr
      ⟨3, by decide, rfl, rfl⟩,
   (c10_shareable_link_lookup dbPub "nope" (by decide)).2
      (by rintro ⟨id, d, hmem, hlink, -⟩
          simp only [dbPub, List.mem_singleton] at hmem
          have hd : d = docPub := congrArg Prod.snd hmem
          rw [hd] at hlink
          exact absurd hlink (by decide))⟩
